import Mathlib

/-!
Verification development for the causal-graph core of the `cognitive`
repository: the graph data model (`src/core/graph/`), the cascade
propagation engine (`src/engine/propagate.py`), the learning loop
(`src/learning/feedback.py`) and the accuracy/calibration metrics
(`src/validation/metrics.py`).

Modelling conventions:
- Python floats are modelled as exact rationals (`ℚ`); the arithmetic in
  the claims involves only short products and sums, where rational
  arithmetic coincides with the intended real-number reading.
- Python dicts (which preserve insertion order) are modelled as
  association lists; `dict.get`, key membership and item assignment are
  mirrored by the `alist*`/`dictSet` helpers below.
- `random.gauss(mu, sigma)` is modelled by an ambient sample stream
  `gauss : ℕ → ℚ` together with a counter: one draw `gauss ctr` is
  consumed per call, and the sampled value is `mu + sigma * gauss ctr`.
  When `delay_std = 0` the Python code returns `delay_mean` without
  drawing, and so does the model.
- `datetime` timestamps are opaque strings; `datetime.now()` is modelled
  as a fixed marker, since no verified property inspects wall-clock time.
- The open `attributes : dict[str, Any]` bag on `Entity` is elided: no
  operation in the verified core reads it.
-/

namespace Cognitive

/-! ## Association-list helpers (Python `dict` / `list` operations) -/

/-- `m.get(k)` on a Python dict, modelled on an association list: the
value at the first entry whose key equals `k`. -/
def alistFind? {α : Type} : List (String × α) → String → Option α
  | [], _ => none
  | p :: rest, k => if p.1 = k then some p.2 else alistFind? rest k

/-- `m.get(k, d)` on a Python dict. -/
def alistGetD {α : Type} (m : List (String × α)) (k : String) (d : α) : α :=
  (alistFind? m k).getD d

/-- `k in m` on a Python dict. -/
def alistContains {α : Type} (m : List (String × α)) (k : String) : Bool :=
  m.any (fun p => decide (p.1 = k))

/-- `m[k] = v` on a Python dict: replace the value at an existing key in
place, otherwise append the new key at the end (insertion order). -/
def dictSet {α : Type} : List (String × α) → String → α → List (String × α)
  | [], k, v => [(k, v)]
  | p :: rest, k, v =>
    if p.1 = k then (k, v) :: rest else p :: dictSet rest k v

/-- Apply `f` to the value stored at key `k` (first occurrence), mirroring
an in-place mutation of the list object stored under `k`. -/
def alistModify {α : Type} : List (String × α) → String → (α → α) → List (String × α)
  | [], _, _ => []
  | p :: rest, k, f =>
    if p.1 = k then (p.1, f p.2) :: rest else p :: alistModify rest k f

/-- Python `list.remove(x)`: delete the first element equal to `x`;
`none` models the `ValueError` raised when `x` is absent. -/
def removeFirst {α : Type} [DecidableEq α] : List α → α → Option (List α)
  | [], _ => none
  | y :: ys, x =>
    if y = x then some ys else (removeFirst ys x).map (fun l => y :: l)

/-- Replace the first element satisfying `p` by its image under `f`,
mirroring an in-place mutation of the first matching object. -/
def updateFirst {α : Type} (p : α → Bool) (f : α → α) : List α → List α
  | [] => []
  | x :: xs => if p x then f x :: xs else x :: updateFirst p f xs

/-- Arithmetic mean of a list of rationals (`np.mean` / `sum(...)/len(...)`). -/
def listMean (l : List ℚ) : ℚ := l.sum / l.length

/-! ## Data model: `Entity`, `CausalLink` (`src/core/graph/entity.py`, `link.py`) -/

/-- `Entity` from `src/core/graph/entity.py`. The `attributes` bag is
elided (never read by the verified core). -/
structure Entity where
  id : String
  entity_type : String
  name : String
deriving DecidableEq, Repr

/-- `CausalLink` from `src/core/graph/link.py`. Field defaults in the
source: `direction=1.0`, `evidence=[]`, `historical_accuracy=0.5`,
`observation_count=0`, `source_type="manual"`, `last_updated=None`. -/
structure CausalLink where
  source : String
  target : String
  relationship_type : String
  strength : ℚ
  delay_mean : ℚ
  delay_std : ℚ
  confidence : ℚ
  direction : ℚ
  evidence : List String
  historical_accuracy : ℚ
  observation_count : ℕ
  source_type : String
  last_updated : Option String
deriving DecidableEq, Repr

/-- `CausalLink.sample_delay`: return `delay_mean` exactly when
`delay_std == 0`, else `max(0, random.gauss(delay_mean, delay_std))`,
consuming one draw from the sample stream. Returns the sampled delay and
the advanced stream counter. -/
def CausalLink.sample_delay (link : CausalLink) (gauss : ℕ → ℚ) (ctr : ℕ) : ℚ × ℕ :=
  if link.delay_std = 0 then (link.delay_mean, ctr)
  else (max 0 (link.delay_mean + link.delay_std * gauss ctr), ctr + 1)

/-- `CausalLink.propagate_magnitude`. -/
def CausalLink.propagate_magnitude (link : CausalLink) (input_magnitude : ℚ) : ℚ :=
  input_magnitude * link.strength * link.direction

/-- `CausalLink.propagate_confidence`. -/
def CausalLink.propagate_confidence (link : CausalLink) (input_confidence : ℚ) : ℚ :=
  input_confidence * link.confidence

/-! ## `CausalGraph` (`src/core/graph/graph.py`) -/

/-- `CausalGraph`: entity dict plus `_outgoing` / `_incoming` adjacency
dicts (Python `defaultdict(list)`), modelled as association lists. -/
structure CausalGraph where
  entities : List (String × Entity)
  _outgoing : List (String × List CausalLink)
  _incoming : List (String × List CausalLink)
deriving DecidableEq, Repr

/-- The empty graph (`CausalGraph()`). -/
def CausalGraph.empty : CausalGraph := ⟨[], [], []⟩

/-- `CausalGraph.add_entity`: upsert by id. -/
def CausalGraph.add_entity (g : CausalGraph) (e : Entity) : CausalGraph :=
  { g with entities := dictSet g.entities e.id e }

/-- `CausalGraph.add_link`. The pair's second component models a raised
exception: `some msg` when the Python code raises, `none` on success; the
first component is the graph state after the call (Python mutates in
place, so mutations made before a raise persist). The endpoint checks
come first, then the duplicate `(source, target, relationship_type)` is
removed from both adjacency lists, then the link is appended to both. -/
def CausalGraph.add_link (g : CausalGraph) (link : CausalLink) :
    CausalGraph × Option String :=
  if ¬ (alistContains g.entities link.source = true) then
    (g, some "Source entity not found in graph")
  else if ¬ (alistContains g.entities link.target = true) then
    (g, some "Target entity not found in graph")
  else
    let out := alistGetD g._outgoing link.source []
    let afterDedup : CausalGraph × Option String :=
      match out.find? (fun ex =>
          decide (ex.target = link.target) && decide (ex.relationship_type = link.relationship_type)) with
      | none => (g, none)
      | some existing =>
        match removeFirst out existing with
        | none => (g, some "list.remove(x): x not in list")
        | some out1 =>
          let g1 := { g with _outgoing := dictSet g._outgoing link.source out1 }
          match removeFirst (alistGetD g1._incoming link.target []) existing with
          | none => (g1, some "list.remove(x): x not in list")
          | some inc1 =>
            ({ g1 with _incoming := dictSet g1._incoming link.target inc1 }, none)
    match afterDedup with
    | (g2, some msg) => (g2, some msg)
    | (g2, none) =>
      ({ g2 with
          _outgoing := dictSet g2._outgoing link.source
            (alistGetD g2._outgoing link.source [] ++ [link]),
          _incoming := dictSet g2._incoming link.target
            (alistGetD g2._incoming link.target [] ++ [link]) }, none)

/-- `CausalGraph.get_outgoing`: outgoing links sorted by target id
(Python `sorted` is a stable sort; so is `List.insertionSort`). -/
def CausalGraph.get_outgoing (g : CausalGraph) (entity_id : String) : List CausalLink :=
  List.insertionSort (fun a b => a.target ≤ b.target)
    (alistGetD g._outgoing entity_id [])

/-- `CausalGraph.get_link`: first link from `source` whose target is
`target`, ignoring `relationship_type`. -/
def CausalGraph.get_link (g : CausalGraph) (source target : String) : Option CausalLink :=
  (alistGetD g._outgoing source []).find? (fun link => decide (link.target = target))

/-- `CausalGraph.iter_links`: all links, in `_outgoing` dict order. -/
def CausalGraph.iter_links (g : CausalGraph) : List CausalLink :=
  (g._outgoing.map (·.2)).flatten

/-- `CausalGraph.num_links`. -/
def CausalGraph.num_links (g : CausalGraph) : ℕ :=
  (g._outgoing.map (fun p => p.2.length)).sum

/-- The graph invariant stated in the specification: `_outgoing` and
`_incoming` are consistent views of the same link set — every link
stored under a source key also appears in the incoming list of its
target. Graphs built through `add_entity` / `add_link` satisfy it. -/
@[reducible] def Consistent (g : CausalGraph) : Prop :=
  ∀ p ∈ g._outgoing, ∀ l ∈ p.2, l ∈ alistGetD g._incoming l.target []

/-! ## `Event`, `Effect`, `Cascade` (`src/engine/propagate.py`) -/

/-- `Event` from `src/engine/propagate.py` (timestamp elided). -/
structure Event where
  entity : String
  magnitude : ℚ
  event_type : String
  description : String
deriving DecidableEq, Repr

/-- One element of an `Effect.cause_chain`: the Python code stores a
heterogeneous list mixing the trigger `Event` and `CausalLink`s. -/
inductive ChainItem where
  | ev (e : Event)
  | link (l : CausalLink)
deriving DecidableEq, Repr

/-- `Effect` from `src/engine/propagate.py`. Source defaults:
`order=1`, `relationship_type=""`, `explanation=""`. -/
structure Effect where
  entity : String
  magnitude : ℚ
  day : ℚ
  confidence : ℚ
  cause_chain : List ChainItem
  order : ℕ
  relationship_type : String
  explanation : String
deriving DecidableEq, Repr

/-- `Effect.magnitude_range`: width `|magnitude| * (1 - confidence) * 0.5`,
and the returned pair is `((magnitude - width) * 100, (magnitude + width) * 100)`
— the source multiplies both endpoints by 100 (percent units). -/
def Effect.magnitude_range (e : Effect) : ℚ × ℚ :=
  let width := |e.magnitude| * (1 - e.confidence) * (1/2)
  ((e.magnitude - width) * 100, (e.magnitude + width) * 100)

/-- `Cascade` (the `_by_day`/`_by_entity`/`_by_order` caches are pure
recomputable views over `effects` and are not modelled). -/
structure Cascade where
  trigger : Event
  effects : List Effect
  horizon_days : ℤ
deriving DecidableEq, Repr

/-! ## The propagation engine (`propagate`, `src/engine/propagate.py`) -/

/-- Python `round(x, 3)` used for the visited-dedup key. (Python uses
round-half-even on binary floats; ties at exactly half a thousandth do
not occur in any verified statement, so round-half-up on `ℚ` is used.) -/
def round3 (x : ℚ) : ℚ := (round (x * 1000) : ℤ) / 1000

/-- One BFS queue entry:
`(entity, current_magnitude, current_day, current_confidence, order, chain)`. -/
structure QEntry where
  entity : String
  magnitude : ℚ
  day : ℚ
  confidence : ℚ
  order : ℕ
  chain : List ChainItem
deriving DecidableEq, Repr

/-- The `Effect` record emitted when a queue entry with `order > 0` is
popped (`relationship_type` and `explanation` keep their defaults). -/
def QEntry.toEffect (e : QEntry) : Effect :=
  { entity := e.entity, magnitude := e.magnitude, day := e.day,
    confidence := e.confidence, cause_chain := e.chain, order := e.order,
    relationship_type := "", explanation := "" }

/-- The inner `for link in graph.get_outgoing(entity)` loop: compute each
child's magnitude/confidence/day, drop children failing the enqueue
thresholds, and thread the sample-stream counter (one draw per link with
`delay_std ≠ 0`, drawn before the thresholds are checked). Returns the
surviving children in link order and the final counter. -/
def expandEntry (horizon_days : ℤ) (min_confidence min_magnitude : ℚ)
    (gauss : ℕ → ℚ) (e : QEntry) : List CausalLink → ℕ → List QEntry × ℕ
  | [], ctr => ([], ctr)
  | link :: rest, ctr =>
    let new_magnitude := link.propagate_magnitude e.magnitude
    let new_confidence := link.propagate_confidence e.confidence
    let s := link.sample_delay gauss ctr
    let new_day := e.day + s.1
    let tail := expandEntry horizon_days min_confidence min_magnitude gauss e rest s.2
    if |new_magnitude| < min_magnitude ∨ new_confidence < min_confidence ∨
        new_day > (horizon_days : ℚ) then
      tail
    else
      (⟨link.target, new_magnitude, new_day, new_confidence, e.order + 1,
        e.chain ++ [ChainItem.link link]⟩ :: tail.1, tail.2)

/-- The final `effects.sort(key=lambda e: (e.day, -e.confidence))`:
stable sort by day ascending then confidence descending. -/
def sortEffects (effects : List Effect) : List Effect :=
  List.insertionSort
    (fun a b => a.day < b.day ∨ (a.day = b.day ∧ b.confidence ≤ a.confidence)) effects

/-- The `while queue:` loop of `propagate`, with explicit fuel. Each
iteration pops the first entry, deduplicates on `(entity, round(magnitude, 3))`,
emits an `Effect` unless it is the order-0 seed, stops expanding on any of
the four stop conditions, and otherwise appends the surviving children.
`none` means the fuel ran out before the queue emptied. -/
def propagateAux (g : CausalGraph) (horizon_days : ℤ)
    (min_confidence min_magnitude : ℚ) (max_order : ℤ) (gauss : ℕ → ℚ) :
    ℕ → List QEntry → List (String × ℚ) → List Effect → ℕ → Option (List Effect)
  | _, [], _, effects, _ => some (sortEffects effects)
  | 0, _ :: _, _, _, _ => none
  | fuel + 1, entry :: rest, visited, effects, ctr =>
    let key := (entry.entity, round3 entry.magnitude)
    if key ∈ visited then
      propagateAux g horizon_days min_confidence min_magnitude max_order gauss
        fuel rest visited effects ctr
    else
      let visited1 := key :: visited
      let effects1 := if 0 < entry.order then effects ++ [entry.toEffect] else effects
      if (entry.order : ℤ) ≥ max_order ∨ entry.confidence < min_confidence ∨
          |entry.magnitude| < min_magnitude ∨ entry.day > (horizon_days : ℚ) then
        propagateAux g horizon_days min_confidence min_magnitude max_order gauss
          fuel rest visited1 effects1 ctr
      else
        let c := expandEntry horizon_days min_confidence min_magnitude gauss entry
          (g.get_outgoing entry.entity) ctr
        propagateAux g horizon_days min_confidence min_magnitude max_order gauss
          fuel (rest ++ c.1) visited1 effects1 c.2

/-- Weight of one queue entry in the termination measure:
`(num_links + 1) ^ (max_order + 1 - order)` (clipped at exponent 0). -/
def entryWeight (B : ℕ) (max_order : ℤ) (e : QEntry) : ℕ :=
  B ^ (max_order + 1 - (e.order : ℤ)).toNat

/-- Termination measure of a queue: the sum of its entry weights. -/
def queueMeasure (B : ℕ) (max_order : ℤ) (q : List QEntry) : ℕ :=
  (q.map (entryWeight B max_order)).sum

/-- The initial queue: `[(event.entity, event.magnitude, 0.0, 1.0, 0, [event])]`. -/
def initialQueue (event : Event) : List QEntry :=
  [⟨event.entity, event.magnitude, 0, 1, 0, [ChainItem.ev event]⟩]

/-- Run the BFS loop of `propagate` from the initial queue, with fuel
equal to the termination measure of the initial queue (shown sufficient
below). Source defaults: `horizon_days=14`, `min_confidence=0.1`,
`min_magnitude=0.005`, `max_order=5`. -/
def propagateRuns (event : Event) (g : CausalGraph) (horizon_days : ℤ)
    (min_confidence min_magnitude : ℚ) (max_order : ℤ) (gauss : ℕ → ℚ) :
    Option (List Effect) :=
  let q0 := initialQueue event
  propagateAux g horizon_days min_confidence min_magnitude max_order gauss
    (queueMeasure (g.num_links + 1) max_order q0) q0 [] [] 0

/-- `propagate(event, graph, horizon_days, min_confidence, min_magnitude,
max_order)`. The fuel-exhausted branch is unreachable (see the
termination theorem) and yields an empty cascade. -/
def propagate (event : Event) (g : CausalGraph) (horizon_days : ℤ)
    (min_confidence min_magnitude : ℚ) (max_order : ℤ) (gauss : ℕ → ℚ) : Cascade :=
  match propagateRuns event g horizon_days min_confidence min_magnitude max_order gauss with
  | some effects => ⟨event, effects, horizon_days⟩
  | none => ⟨event, [], horizon_days⟩

/-! ## Learning loop (`src/learning/feedback.py`) -/

/-- `Outcome` from `src/learning/feedback.py` (`observed_at` elided). -/
structure Outcome where
  entity : String
  magnitude : ℚ
  timing_days : ℚ
deriving DecidableEq, Repr

/-- `PredictionOutcome` from `src/learning/feedback.py`. -/
structure PredictionOutcome where
  effect : Effect
  outcome : Outcome
  direction_correct : Bool
  magnitude_error : ℚ
  timing_error : ℚ
deriving DecidableEq, Repr

/-- `compare_prediction_to_outcome`. -/
def compare_prediction_to_outcome (effect : Effect) (outcome : Outcome) :
    PredictionOutcome :=
  { effect := effect, outcome := outcome,
    direction_correct := decide
      ((effect.magnitude > 0 ∧ outcome.magnitude > 0) ∨
       (effect.magnitude < 0 ∧ outcome.magnitude < 0) ∨
       (effect.magnitude = 0 ∧ outcome.magnitude = 0)),
    magnitude_error := |effect.magnitude - outcome.magnitude|,
    timing_error := |effect.day - outcome.timing_days| }

/-- `outcomes_by_entity = {o.entity: o for o in outcomes}`: a dict
comprehension, so a later outcome with the same entity id overwrites an
earlier one. -/
def outcomesByEntity (outcomes : List Outcome) : List (String × Outcome) :=
  outcomes.foldl (fun m o => dictSet m o.entity o) []

/-- The matching loop of `learn_from_outcomes`: each effect whose entity
id is a key of `outcomes_by_entity` yields one comparison, in effect
order; other effects (and unmatched outcomes) are dropped. -/
def matchEffectsToOutcomes (effects : List Effect) (outcomes : List Outcome) :
    List PredictionOutcome :=
  effects.filterMap (fun eff =>
    (alistFind? (outcomesByEntity outcomes) eff.entity).map
      (compare_prediction_to_outcome eff))

/-- The `stats` dict returned by `learn_from_outcomes`. -/
structure LearnStats where
  links_updated : ℕ
  predictions_matched : ℕ
  average_magnitude_error : ℚ
  average_timing_error : ℚ
  direction_accuracy : ℚ
deriving DecidableEq, Repr

/-- The all-zero `stats` dict `learn_from_outcomes` initializes (and
returns unchanged when nothing matches). -/
def emptyLearnStats : LearnStats := ⟨0, 0, 0, 0, 0⟩

/-- First block of `_update_link`: the strength update from magnitude
accuracy, with the adjustment capped at ±10% and the result clamped to
`[0.01, 0.99]`. Skipped when the outcome or the predicted magnitude is
zero. -/
def strengthStep (comparison : PredictionOutcome) (learning_rate : ℚ)
    (link : CausalLink) : CausalLink :=
  if comparison.outcome.magnitude ≠ 0 then
    let predicted_contribution := |comparison.effect.magnitude|
    let actual_contribution := |comparison.outcome.magnitude|
    if predicted_contribution > 0 then
      let adjustment := max (-(1/10)) (min (1/10)
        ((actual_contribution / predicted_contribution - 1) * learning_rate))
      { link with strength := max (1/100) (min (99/100) (link.strength * (1 + adjustment))) }
    else link
  else link

/-- Second block of `_update_link`: move `delay_mean` toward the actual
timing (floored at 0.1) and nudge `delay_std`, clamping it to
`[0.1, delay_mean]`. Skipped when the timing error is zero. -/
def delayStep (comparison : PredictionOutcome) (learning_rate : ℚ)
    (link : CausalLink) : CausalLink :=
  if comparison.timing_error > 0 then
    let delay_diff := comparison.outcome.timing_days - link.delay_mean
    let new_mean := max (1/10) (link.delay_mean + delay_diff * learning_rate)
    let new_std :=
      if comparison.timing_error > link.delay_std then
        link.delay_std * (1 + learning_rate * (1/2))
      else
        link.delay_std * (1 - learning_rate * (1/5))
    { link with delay_mean := new_mean, delay_std := max (1/10) (min new_mean new_std) }
  else link

/-- Third block of `_update_link`: confidence up `0.02 × learning_rate`
(capped at 0.99) on a direction match, else down `0.05 × learning_rate`
(floored at 0.1). -/
def confidenceStep (comparison : PredictionOutcome) (learning_rate : ℚ)
    (link : CausalLink) : CausalLink :=
  if comparison.direction_correct then
    { link with confidence := min (99/100) (link.confidence + (1/50) * learning_rate) }
  else
    { link with confidence := max (1/10) (link.confidence - (1/20) * learning_rate) }

/-- Last block of `_update_link`: observation count, historical accuracy
EMA with adaptive rate `1/(count+1)`, and `last_updated`
(`datetime.now().isoformat()` is modelled by a fixed marker). -/
def bookkeepingStep (comparison : PredictionOutcome) (link : CausalLink) : CausalLink :=
  let count : ℕ := link.observation_count + 1
  let alpha : ℚ := 1 / ((count : ℚ) + 1)
  let accuracy : ℚ :=
    1 - min 1 (comparison.magnitude_error / max (1/100) |comparison.outcome.magnitude|)
  { link with
      observation_count := count,
      historical_accuracy := (1 - alpha) * link.historical_accuracy + alpha * accuracy,
      last_updated := some "now" }

/-- `_update_link`: the in-place update of one link from one
prediction/outcome comparison, as a pure function on the link — the four
mutation blocks of the source applied in order. -/
def updateLinkFn (comparison : PredictionOutcome) (learning_rate : ℚ)
    (link : CausalLink) : CausalLink :=
  bookkeepingStep comparison
    (confidenceStep comparison learning_rate
      (delayStep comparison learning_rate
        (strengthStep comparison learning_rate link)))

/-- The range clamps the specification asserts for every link after
learning: `strength ∈ [0.01, 0.99]`, `confidence ∈ [0.1, 0.99]`,
`delay_mean ≥ 0.1`. -/
@[reducible] def linkInRanges (l : CausalLink) : Prop :=
  1/100 ≤ l.strength ∧ l.strength ≤ 99/100 ∧
  1/10 ≤ l.confidence ∧ l.confidence ≤ 99/100 ∧
  1/10 ≤ l.delay_mean

/-- Apply `_update_link` to the link `graph.get_link(source, target)`
points at: the first link with matching target in `_outgoing[source]`
(mutated in place in the source; `_incoming` holds the same objects, but
no operation verified here reads `_incoming` after learning). -/
def updateLinkAt (g : CausalGraph) (source target : String)
    (f : CausalLink → CausalLink) : CausalGraph :=
  { g with _outgoing :=
      alistModify g._outgoing source (updateFirst (fun l => decide (l.target = target)) f) }

/-- The link-update pass of `learn_from_outcomes`: for each matched
comparison, for each `CausalLink` in its effect's `cause_chain`, look the
link up in the (current) graph by source/target and update it in place,
counting successful updates. -/
def applyLinkUpdates (learning_rate : ℚ) (matched : List PredictionOutcome)
    (g : CausalGraph) : CausalGraph × ℕ :=
  matched.foldl (fun acc comparison =>
    comparison.effect.cause_chain.foldl (fun acc item =>
      match item with
      | ChainItem.ev _ => acc
      | ChainItem.link l =>
        match acc.1.get_link l.source l.target with
        | none => acc
        | some _ =>
          (updateLinkAt acc.1 l.source l.target (updateLinkFn comparison learning_rate),
           acc.2 + 1)) acc) (g, 0)

/-- `learn_from_outcomes(cascade, outcomes, graph, learning_rate)`:
returns the `stats` dict and the mutated graph. Source default:
`learning_rate=0.1`. -/
def learn_from_outcomes (cascade : Cascade) (outcomes : List Outcome)
    (g : CausalGraph) (learning_rate : ℚ) : LearnStats × CausalGraph :=
  let matched := matchEffectsToOutcomes cascade.effects outcomes
  if matched = [] then (emptyLearnStats, g)
  else
    let upd := applyLinkUpdates learning_rate matched g
    ({ links_updated := upd.2,
       predictions_matched := matched.length,
       direction_accuracy :=
         ((matched.countP (fun m => m.direction_correct)) : ℚ) / matched.length,
       average_magnitude_error := (matched.map (fun m => m.magnitude_error)).sum / matched.length,
       average_timing_error := (matched.map (fun m => m.timing_error)).sum / matched.length },
     upd.1)

/-- A sequence of `learn_from_outcomes` calls against the same graph:
each call sees the graph produced by the previous one. -/
def learnMany (g : CausalGraph) (calls : List (Cascade × List Outcome × ℚ)) :
    CausalGraph :=
  calls.foldl (fun gr c => (learn_from_outcomes c.1 c.2.1 gr c.2.2).2) g

/-! ## Metrics and calibration (`src/validation/metrics.py`) -/

/-- One prediction dict for `calculate_accuracy` / `calculate_calibration`:
`entity` and `magnitude` are required keys, `day` and `confidence` may be
absent (`Option`). -/
structure PredRec where
  entity : String
  magnitude : ℚ
  day : Option ℚ
  confidence : Option ℚ
deriving DecidableEq, Repr

/-- One actual-outcome dict: `entity` and `magnitude` required, `day`
optional. -/
structure ActualRec where
  entity : String
  magnitude : ℚ
  day : Option ℚ
deriving DecidableEq, Repr

/-- The matching loop shared by `calculate_accuracy` and
`calculate_calibration`: each prediction is paired with the first actual
having the same entity id (`break` after the first hit); predictions with
no match are dropped. -/
def matchedPairs (predictions : List PredRec) (actuals : List ActualRec) :
    List (PredRec × ActualRec) :=
  predictions.filterMap (fun pred =>
    (actuals.find? (fun actual => decide (actual.entity = pred.entity))).map
      (fun actual => (pred, actual)))

/-- The direction test used by the metrics module: strictly positive
pair or strictly negative pair (a zero magnitude on either side never
counts). -/
def dirOk (pa : PredRec × ActualRec) : Bool :=
  decide ((pa.1.magnitude > 0 ∧ pa.2.magnitude > 0) ∨
          (pa.1.magnitude < 0 ∧ pa.2.magnitude < 0))

/-- `AccuracyMetrics` from `src/validation/metrics.py`. -/
structure AccuracyMetrics where
  direction_accuracy : ℚ
  magnitude_mae : ℚ
  magnitude_mape : ℚ
  timing_mae : ℚ
  calibration_error : ℚ
  n_predictions : ℕ
deriving DecidableEq, Repr

/-- The all-zero `AccuracyMetrics` returned on empty or unmatched input. -/
def zeroAccuracyMetrics : AccuracyMetrics := ⟨0, 0, 0, 0, 0, 0⟩

/-- `calculate_accuracy(predictions, actuals)`. -/
def calculate_accuracy (predictions : List PredRec) (actuals : List ActualRec) :
    AccuracyMetrics :=
  if predictions = [] ∨ actuals = [] then zeroAccuracyMetrics
  else
    let matched := matchedPairs predictions actuals
    if matched = [] then zeroAccuracyMetrics
    else
      let direction_correct := matched.countP dirOk
      let magnitude_errors := matched.map (fun pa => |pa.1.magnitude - pa.2.magnitude|)
      let magnitude_pct_errors := matched.filterMap (fun pa =>
        if pa.2.magnitude ≠ 0 then
          some (|pa.1.magnitude - pa.2.magnitude| / |pa.2.magnitude|)
        else none)
      let timing_errors := matched.filterMap (fun pa =>
        match pa.1.day, pa.2.day with
        | some pd, some ad => some |pd - ad|
        | _, _ => none)
      let n := matched.length
      { direction_accuracy := if 0 < n then (direction_correct : ℚ) / n else 0,
        magnitude_mae := if magnitude_errors = [] then 0 else listMean magnitude_errors,
        magnitude_mape := if magnitude_pct_errors = [] then 0 else listMean magnitude_pct_errors,
        timing_mae := if timing_errors = [] then 0 else listMean timing_errors,
        calibration_error := 0,
        n_predictions := n }

/-- The matched `results` list of `calculate_calibration`: per matched
prediction, its confidence (`pred.get("confidence", 0.5)`) and whether
the direction was correct. -/
def calibResults (predictions : List PredRec) (actuals : List ActualRec) :
    List (ℚ × Bool) :=
  (matchedPairs predictions actuals).map (fun pa => (pa.1.confidence.getD (1/2), dirOk pa))

/-- Membership of a confidence value in calibration bin `i` of
`num_bins`: `bins[i] <= confidence < bins[i+1]` with
`bins = np.linspace(0, 1, num_bins + 1)` (the exact rational endpoints
`i / num_bins`). -/
def inBin (num_bins i : ℕ) (confidence : ℚ) : Bool :=
  decide ((i : ℚ) / num_bins ≤ confidence ∧ confidence < ((i : ℚ) + 1) / num_bins)

/-- Per-bin detail record of `calculate_calibration` (the dict is keyed
in the source by a formatted `"low-high"` label determined by the bin
index; the model keys it by the bin index itself). -/
structure BinDetail where
  expected : ℚ
  actual : ℚ
  count : ℕ
  error : ℚ
deriving DecidableEq, Repr

/-- One iteration of the binning loop of `calculate_calibration`: the
detail record for bin `i` (`none` when the bin is empty; `expected` is
the bin midpoint, `actual` the direction-correct fraction). -/
def calibBin (num_bins : ℕ) (results : List (ℚ × Bool)) (i : ℕ) :
    Option (ℕ × BinDetail) :=
  let bin_results := results.filter (fun r => inBin num_bins i r.1)
  if bin_results = [] then none
  else
    let expected := ((i : ℚ) / num_bins + ((i : ℚ) + 1) / num_bins) / 2
    let actualAcc := ((bin_results.countP (fun r => r.2)) : ℚ) / bin_results.length
    some (i, ⟨expected, actualAcc, bin_results.length, |expected - actualAcc|⟩)

/-- The binning loop of `calculate_calibration` over a `results` list:
non-empty bins produce a detail record; the calibration error is the
mean of the non-empty bins' errors (0 when every bin is empty). -/
def calibFromResults (num_bins : ℕ) (results : List (ℚ × Bool)) :
    ℚ × List (ℕ × BinDetail) :=
  let bins := (List.range num_bins).filterMap (calibBin num_bins results)
  let errors := bins.map (fun b => b.2.error)
  (if errors = [] then 0 else listMean errors, bins)

/-- `calculate_calibration(predictions, actuals, num_bins)`. Source
default: `num_bins=10`. -/
def calculate_calibration (predictions : List PredRec) (actuals : List ActualRec)
    (num_bins : ℕ) : ℚ × List (ℕ × BinDetail) :=
  if predictions = [] ∨ actuals = [] then (0, [])
  else
    let results := calibResults predictions actuals
    if results = [] then (0, [])
    else calibFromResults num_bins results

/-- The four thresholds every returned effect is claimed to satisfy:
confidence and magnitude at least the minima, day inside `[0, horizon]`,
order inside `[1, max_order]`. -/
@[reducible] def effectWithinThresholds (horizon_days : ℤ) (min_confidence min_magnitude : ℚ)
    (max_order : ℤ) (f : Effect) : Prop :=
  min_confidence ≤ f.confidence ∧ min_magnitude ≤ |f.magnitude| ∧
  0 ≤ f.day ∧ f.day ≤ (horizon_days : ℚ) ∧
  1 ≤ f.order ∧ (f.order : ℤ) ≤ max_order

/-- Invariant carried by every BFS queue entry: the day is nonnegative,
and every entry other than the order-0 seed already passed the enqueue
thresholds. -/
@[reducible] def entryInv (horizon_days : ℤ) (min_confidence min_magnitude : ℚ)
    (max_order : ℤ) (e : QEntry) : Prop :=
  0 ≤ e.day ∧ (1 ≤ e.order →
    min_confidence ≤ e.confidence ∧ min_magnitude ≤ |e.magnitude| ∧
    e.day ≤ (horizon_days : ℚ) ∧ (e.order : ℤ) ≤ max_order)

/-! ## Spec-side definitions (used only to compare the spec's wording
against the code) -/

/-- The direction-match predicate as the specification words it: matching
strict sign, with a zero predicted magnitude counting as matching exactly
a zero actual magnitude. (The code's own predicate is `dirOk` above,
which never counts a zero.) -/
def specDirectionMatch (pa : PredRec × ActualRec) : Bool :=
  decide ((pa.1.magnitude > 0 ∧ pa.2.magnitude > 0) ∨
          (pa.1.magnitude < 0 ∧ pa.2.magnitude < 0) ∨
          (pa.1.magnitude = 0 ∧ pa.2.magnitude = 0))

/-- Predicate selecting predictions whose (defaulted) confidence is not
exactly 1.0, used to state that confidence-1.0 predictions contribute
nothing to calibration. -/
def confNotOne (p : PredRec) : Bool := !(decide (p.confidence.getD (1/2) = 1))

/-- The same predicate on a matched calibration result entry. -/
def resNotOne (r : ℚ × Bool) : Bool := !(decide (r.1 = 1))

/-! ## Concrete instances used by the scenario claims -/

/-- The `A→B` link of the spec's scenario: strength 0.5, delay_mean 1,
delay_std 0, confidence 0.8, direction 1. -/
def exampleLinkAB : CausalLink :=
  ⟨"A", "B", "supplier", 1/2, 1, 0, 4/5, 1, [], 1/2, 0, "manual", none⟩

/-- The `B→C` link of the spec's scenario: strength 0.4, delay_mean 1,
delay_std 0, confidence 0.75, direction −1. -/
def exampleLinkBC : CausalLink :=
  ⟨"B", "C", "competitor", 2/5, 1, 0, 3/4, -1, [], 1/2, 0, "manual", none⟩

/-- The scenario graph with entities A, B, C and the two links above,
built through `add_entity` / `add_link`. -/
def exampleGraph : CausalGraph :=
  (((((CausalGraph.empty.add_entity ⟨"A", "company", "A"⟩).add_entity
      ⟨"B", "company", "B"⟩).add_entity
      ⟨"C", "company", "C"⟩).add_link exampleLinkAB).1.add_link exampleLinkBC).1

/-- The scenario trigger: magnitude −0.08 at A. -/
def exampleEvent : Event := ⟨"A", -2/25, "earnings", ""⟩

/-- The scenario cascade under the source defaults
(`horizon_days=14`, `min_confidence=0.1`, `min_magnitude=0.005`,
`max_order=5`); all delays are deterministic (`delay_std = 0`), so the
sample stream is irrelevant. -/
def exampleCascade : Cascade :=
  propagate exampleEvent exampleGraph 14 (1/10) (1/200) 5 (fun _ => 0)

/-- A link whose confidence 0 lies outside the learning clamp ranges
(strength and delay are in range); the builder interface allows it since
`CausalLink` construction does not clamp. -/
def lowConfLink : CausalLink :=
  ⟨"A", "B", "supplier", 1/2, 1, 0, 0, 1, [], 1/2, 0, "manual", none⟩

/-- A two-entity graph carrying `lowConfLink`. -/
def lowConfGraph : CausalGraph :=
  ⟨[("A", ⟨"A", "company", "A"⟩), ("B", ⟨"B", "company", "B"⟩)],
   [("A", [lowConfLink])], [("B", [lowConfLink])]⟩

/-- A cascade with one order-1 effect on B whose cause chain traverses
`lowConfLink`. -/
def lowConfCascade : Cascade :=
  ⟨⟨"A", 1/10, "earnings", ""⟩,
   [⟨"B", 1/25, 1, 1, [ChainItem.link lowConfLink], 1, "", ""⟩], 14⟩

/-- A cascade over the scenario graph whose order-1 effect on B traverses
`exampleLinkAB`. -/
def exampleCascadeB : Cascade :=
  ⟨exampleEvent,
   [⟨"B", -1/25, 1, 4/5, [ChainItem.ev exampleEvent, ChainItem.link exampleLinkAB], 1, "", ""⟩], 14⟩

/-!
# Theorems

Each claim `Cn` of the specification audit is settled below. Shared
helper lemmas come first.
-/

/-- `List.find?` distributes over append, preferring the left list. -/
theorem findAppendOr {α : Type} (p : α → Bool) :
    ∀ l₁ l₂ : List α, List.find? p (l₁ ++ l₂) = (List.find? p l₁).or (List.find? p l₂) := by
  intro l₁ l₂
  induction l₁ with
  | nil => simp
  | cons x xs ih =>
    by_cases hx : p x = true
    · simp [List.find?, hx]
    · simp [List.find?, hx, ih]

/-- Looking a key up after a dict assignment: the new value at the
assigned key, the old lookup elsewhere. -/
theorem alistFind?_dictSet {α : Type} (m : List (String × α)) (k e : String) (v : α) :
    alistFind? (dictSet m k v) e = if e = k then some v else alistFind? m e := by
  induction m with
  | nil =>
    by_cases he : e = k
    · simp [dictSet, alistFind?, he]
    · have hk : ¬ (k = e) := fun h => he h.symm
      simp [dictSet, alistFind?, he, hk]
  | cons p rest ih =>
    by_cases hpk : p.1 = k
    · by_cases he : e = k
      · simp [dictSet, hpk, alistFind?, he]
      · have hk : ¬ (k = e) := fun h => he h.symm
        have hpe : ¬ (p.1 = e) := fun h => hk (hpk.symm.trans h)
        simp [dictSet, hpk, alistFind?, hk, he, hpe]
    · by_cases hpe : p.1 = e
      · have he : ¬ (e = k) := fun h => hpk (hpe.trans h)
        simp [dictSet, hpk, alistFind?, hpe, he]
      · simp only [dictSet, if_neg hpk, alistFind?, if_neg hpe]
        exact ih

/-- Folding dict assignments over an outcome list: the resulting lookup
is the last-written value, i.e. the first match in the reversed list. -/
theorem foldl_dictSet_lookup (os : List Outcome) :
    ∀ (m : List (String × Outcome)) (e : String),
      alistFind? (os.foldl (fun m o => dictSet m o.entity o) m) e =
        (os.reverse.find? (fun o => decide (o.entity = e))).or (alistFind? m e) := by
  induction os with
  | nil => intro m e; simp
  | cons o rest ih =>
    intro m e
    have step :
        alistFind? ((o :: rest).foldl (fun m o => dictSet m o.entity o) m) e =
          (rest.reverse.find? (fun o => decide (o.entity = e))).or
            (if e = o.entity then some o else alistFind? m e) := by
      rw [List.foldl_cons, ih (dictSet m o.entity o) e, alistFind?_dictSet]
    rw [step]
    have single :
        ([o].find? (fun o => decide (o.entity = e))).or (alistFind? m e) =
          (if e = o.entity then some o else alistFind? m e) := by
      by_cases he : o.entity = e
      · simp [List.find?, he]
      · have he' : ¬ (e = o.entity) := fun h => he h.symm
        simp [List.find?, he, he']
    rw [List.reverse_cons, findAppendOr, Option.or_assoc, single]

/-- The matching dict of `learn_from_outcomes` realizes last-outcome-wins
lookup. -/
theorem outcomesByEntity_lookup (outcomes : List Outcome) (e : String) :
    alistFind? (outcomesByEntity outcomes) e =
      outcomes.reverse.find? (fun o => decide (o.entity = e)) := by
  have h := foldl_dictSet_lookup outcomes [] e
  simpa [outcomesByEntity, alistFind?] using h

/-- C1 (counterexample): in the spec's scenario, the code produces the
order-1 effect on B with confidence 0.8 — not ≈ 0.64 — and the order-2
effect on C with confidence 0.6 — not ≈ 0.48 (the magnitudes −0.04 and
+0.016 do match). The trigger enters the traversal with confidence 1.0,
so the first hop yields `1.0 × 0.8 = 0.8`, not `0.8 × 0.8`. -/
theorem C1_counterexample :
    exampleCascade.effects.map
        (fun e => (e.entity, e.magnitude, e.day, e.confidence, (e.order : ℤ))) =
      [("B", -1/25, 1, 4/5, 1), ("C", 2/125, 2, 3/5, 2)] ∧
    ¬ (|(4 : ℚ)/5 - 16/25| ≤ 1/20) ∧ ¬ (|(3 : ℚ)/5 - 12/25| ≤ 1/20) := by
  with_unfolding_all decide

/-- C1 (amended): on the scenario graph, `propagate` on an event of
magnitude −0.08 at A with default thresholds returns exactly an order-1
effect on B with magnitude −0.04, day 1, confidence 0.8, and an order-2
effect on C with magnitude +0.016, day 2, confidence 0.6. -/
theorem C1_theorem :
    exampleCascade.effects.map
        (fun e => (e.entity, e.magnitude, e.day, e.confidence, (e.order : ℤ))) =
      [("B", -1/25, 1, 4/5, 1), ("C", 2/125, 2, 3/5, 2)] := by
  with_unfolding_all decide

/-- C5 (counterexample): with one effect on entity A and two outcomes for
A (magnitudes 1 then 2, in list order), the matching inside
`learn_from_outcomes` pairs the effect with the *last* outcome
(magnitude 2), not the first: `outcomes_by_entity` is a dict
comprehension, so a later outcome overwrites an earlier one. -/
theorem C5_counterexample :
    (matchEffectsToOutcomes [⟨"A", 0, 0, 1, [], 1, "", ""⟩]
        [⟨"A", 1, 0⟩, ⟨"A", 2, 0⟩]).map (fun m => m.outcome.magnitude) = [2] ∧
    ((2 : ℚ) ≠ 1) := by
  with_unfolding_all decide

/-- C5 (amended): in `learn_from_outcomes`, each Effect in
`cascade.effects` is matched to the **last** Outcome in the outcomes list
that shares its entity id; effects with no outcome of the same entity id
(and outcomes matching no effect) are dropped from the matched list
without error or update. -/
theorem C5_theorem (cascade : Cascade) (outcomes : List Outcome) :
    matchEffectsToOutcomes cascade.effects outcomes =
      cascade.effects.filterMap (fun eff =>
        (outcomes.reverse.find? (fun o => decide (o.entity = eff.entity))).map
          (compare_prediction_to_outcome eff)) := by
  unfold matchEffectsToOutcomes
  simp only [outcomesByEntity_lookup]

/-- C6 (counterexample): a matched pair with zero predicted and zero
actual magnitude is *not* counted as direction-correct by
`calculate_accuracy`; the claim's fraction (zero matches zero) would give
1 here, while the code gives 0. -/
theorem C6_counterexample :
    (calculate_accuracy [⟨"A", 0, none, none⟩] [⟨"A", 0, none⟩]).direction_accuracy = 0 ∧
    ((matchedPairs [⟨"A", 0, none, none⟩] [⟨"A", 0, none⟩]).countP specDirectionMatch : ℚ) /
      (matchedPairs [⟨"A", 0, none, none⟩] [⟨"A", 0, none⟩]).length = 1 ∧
    (0 : ℚ) ≠ 1 := by
  with_unfolding_all decide

/-- C6 (amended): whenever at least one prediction matches an actual,
`direction_accuracy` equals the fraction of matched pairs whose
magnitudes are both strictly positive or both strictly negative; a zero
predicted (or actual) magnitude never counts as a direction match, not
even zero against zero. -/
theorem C6_theorem (predictions : List PredRec) (actuals : List ActualRec)
    (h : matchedPairs predictions actuals ≠ []) :
    (calculate_accuracy predictions actuals).direction_accuracy =
      ((matchedPairs predictions actuals).countP dirOk : ℚ) /
        (matchedPairs predictions actuals).length := by
  have hp : predictions ≠ [] := by
    intro hp
    exact h (by simp [matchedPairs, hp])
  have ha : actuals ≠ [] := by
    intro ha
    exact h (by simp [matchedPairs, ha])
  have hn : 0 < (matchedPairs predictions actuals).length :=
    List.length_pos.mpr h
  simp [calculate_accuracy, hp, ha, h, hn]

/-- C6 (witness): two matched pairs, one direction-correct; the accuracy
is the countP-fraction 1/2. -/
theorem C6_witness :
    (calculate_accuracy [⟨"A", 1, none, none⟩, ⟨"B", -1, none, none⟩]
        [⟨"A", 2, none⟩, ⟨"B", 1, none⟩]).direction_accuracy =
      ((matchedPairs [⟨"A", 1, none, none⟩, ⟨"B", -1, none, none⟩]
          [⟨"A", 2, none⟩, ⟨"B", 1, none⟩]).countP dirOk : ℚ) /
        (matchedPairs [⟨"A", 1, none, none⟩, ⟨"B", -1, none, none⟩]
          [⟨"A", 2, none⟩, ⟨"B", 1, none⟩]).length :=
  C6_theorem _ _ (by with_unfolding_all decide)

/-- C7 (counterexample): for the effect with magnitude 0.1 and confidence
0.5 the width is 0.025, and `magnitude_range` returns `(7.5, 12.5)` — the
interval scaled by 100 (percent units) — not the decimal-unit interval
`(0.075, 0.125)` the claim states. -/
theorem C7_counterexample :
    Effect.magnitude_range ⟨"X", 1/10, 0, 1/2, [], 1, "", ""⟩ = (15/2, 25/2) ∧
    Effect.magnitude_range ⟨"X", 1/10, 0, 1/2, [], 1, "", ""⟩ ≠ (3/40, 1/8) := by
  with_unfolding_all decide

/-- C7 (amended): for every Effect with magnitude m and confidence c,
`magnitude_range` equals `((m − w) × 100, (m + w) × 100)` — the interval
`[m − w, m + w]` expressed in percent units, not in the decimal units of
m — where `w = |m| × (1 − c) × 0.5`. -/
theorem C7_theorem (e : Effect) :
    e.magnitude_range =
      ((e.magnitude - |e.magnitude| * (1 - e.confidence) * (1/2)) * 100,
       (e.magnitude + |e.magnitude| * (1 - e.confidence) * (1/2)) * 100) := rfl

/-- Unfolding the matching loop one prediction at a time. -/
theorem matchedPairs_cons (p : PredRec) (rest : List PredRec) (actuals : List ActualRec) :
    matchedPairs (p :: rest) actuals =
      match actuals.find? (fun actual => decide (actual.entity = p.entity)) with
      | none => matchedPairs rest actuals
      | some a => (p, a) :: matchedPairs rest actuals := by
  cases hf : actuals.find? (fun actual => decide (actual.entity = p.entity)) <;>
    simp [matchedPairs, List.filterMap_cons, hf]

/-- Filtering the predictions list commutes with the entity matching:
matching is per-prediction, each against the first actual of the same
entity. -/
theorem matchedPairs_filter (q : PredRec → Bool) (predictions : List PredRec)
    (actuals : List ActualRec) :
    matchedPairs (predictions.filter q) actuals =
      (matchedPairs predictions actuals).filter (fun pa => q pa.1) := by
  induction predictions with
  | nil => simp [matchedPairs]
  | cons p rest ih =>
    by_cases hq : q p = true
    · rw [List.filter_cons_of_pos hq]
      cases hf : actuals.find? (fun actual => decide (actual.entity = p.entity)) with
      | none =>
        simp only [matchedPairs_cons, hf]
        exact ih
      | some a =>
        simp only [matchedPairs_cons, hf]
        simp [List.filter_cons, hq, ih]
    · rw [List.filter_cons_of_neg hq]
      cases hf : actuals.find? (fun actual => decide (actual.entity = p.entity)) with
      | none =>
        simp only [matchedPairs_cons, hf]
        exact ih
      | some a =>
        simp only [matchedPairs_cons, hf]
        simp [List.filter_cons, hq, ih]

/-- Filtering out confidence-1.0 predictions filters the matched
calibration results accordingly. -/
theorem calibResults_filter (predictions : List PredRec) (actuals : List ActualRec) :
    calibResults (predictions.filter confNotOne) actuals =
      (calibResults predictions actuals).filter resNotOne := by
  unfold calibResults
  rw [matchedPairs_filter]
  rw [List.filter_map]
  congr 1

/-- A confidence of exactly 1.0 lies in none of the calibration bins:
every bin, the last included, is half-open `[low, high)`. -/
theorem inBin_one_false (n i : ℕ) (h : i < n) : inBin n i 1 = false := by
  have hn : (0 : ℚ) < n := by exact_mod_cast Nat.lt_of_le_of_lt (Nat.zero_le i) h
  have hle : ((i : ℚ) + 1) / n ≤ 1 := by
    rw [div_le_one hn]
    exact_mod_cast h
  simp only [inBin, decide_eq_false_iff_not]
  rintro ⟨h1, h2⟩
  linarith

/-- Entries with confidence exactly 1 can be dropped from a results list
without changing any bin's contents. -/
theorem binFilter_eq (n i : ℕ) (h : i < n) (results : List (ℚ × Bool)) :
    (results.filter resNotOne).filter (fun r => inBin n i r.1) =
      results.filter (fun r => inBin n i r.1) := by
  rw [List.filter_filter]
  apply List.filter_congr
  intro r _
  by_cases h1 : r.1 = 1
  · simp [resNotOne, h1, inBin_one_false n i h]
  · simp [resNotOne, h1]

/-- Dropping confidence-1 entries does not change any bin's detail
record. -/
theorem calibBin_filter (n : ℕ) (results : List (ℚ × Bool)) (i : ℕ) (h : i < n) :
    calibBin n (results.filter resNotOne) i = calibBin n results i := by
  unfold calibBin
  rw [binFilter_eq n i h results]

/-- Dropping confidence-1 entries leaves the whole binning result (error
and per-bin details) unchanged. -/
theorem calibFromResults_filter (n : ℕ) (results : List (ℚ × Bool)) :
    calibFromResults n (results.filter resNotOne) = calibFromResults n results := by
  unfold calibFromResults
  rw [List.filterMap_congr
    (fun i hi => calibBin_filter n results i (List.mem_range.mp hi))]

/-- When every matched confidence is exactly 1, every bin is empty and
the calibration output is degenerate. -/
theorem calibFromResults_allOne (n : ℕ) (results : List (ℚ × Bool))
    (h : ∀ r ∈ results, r.1 = (1 : ℚ)) :
    calibFromResults n results = (0, []) := by
  have hbin : ∀ i ∈ List.range n, calibBin n results i = none := by
    intro i hi
    have hempty : results.filter (fun r => inBin n i r.1) = [] := by
      apply List.filter_eq_nil_iff.mpr
      intro r hr
      rw [h r hr, inBin_one_false n i (List.mem_range.mp hi)]
      simp
    unfold calibBin
    rw [hempty]
    rfl
  have hnil : (List.range n).filterMap (calibBin n results) = [] :=
    List.filterMap_eq_nil_iff.mpr hbin
  simp [calibFromResults, hnil]

/-- C10: a matched prediction whose confidence is exactly 1.0 falls into
none of the half-open confidence bins `[i/n, (i+1)/n)`, and dropping all
such predictions leaves both the calibration error and the returned bin
details of `calculate_calibration` unchanged — they contribute nothing. -/
theorem C10_theorem (predictions : List PredRec) (actuals : List ActualRec) (n : ℕ) :
    (∀ i, i < n → inBin n i 1 = false) ∧
    calculate_calibration (predictions.filter confNotOne) actuals n =
      calculate_calibration predictions actuals n := by
  refine ⟨fun i hi => inBin_one_false n i hi, ?_⟩
  by_cases hp : predictions = []
  · simp [calculate_calibration, hp]
  by_cases ha : actuals = []
  · simp [calculate_calibration, ha]
  have hres : calibResults (predictions.filter confNotOne) actuals =
      (calibResults predictions actuals).filter resNotOne :=
    calibResults_filter predictions actuals
  by_cases hr : calibResults predictions actuals = []
  · have hr' : calibResults (predictions.filter confNotOne) actuals = [] := by
      rw [hres, hr]
      rfl
    by_cases hp' : predictions.filter confNotOne = [] <;>
      simp [calculate_calibration, hp, ha, hr, hr', hp']
  · by_cases hr' : calibResults (predictions.filter confNotOne) actuals = []
    · have hall : ∀ r ∈ calibResults predictions actuals, r.1 = (1 : ℚ) := by
        intro r hrr
        have hfil : (calibResults predictions actuals).filter resNotOne = [] := by
          rw [← hres]; exact hr'
        have := List.filter_eq_nil_iff.mp hfil r hrr
        simpa [resNotOne] using this
      have hmain : calibFromResults n (calibResults predictions actuals) = (0, []) :=
        calibFromResults_allOne n _ hall
      by_cases hp' : predictions.filter confNotOne = [] <;>
        simp [calculate_calibration, hp, ha, hr, hr', hp', hmain]
    · have hp' : predictions.filter confNotOne ≠ [] := by
        intro h0
        apply hr'
        rw [h0]
        rfl
      simp only [calculate_calibration, if_neg (not_or.mpr ⟨hp, ha⟩),
        if_neg (not_or.mpr ⟨hp', ha⟩), if_neg hr, if_neg hr']
      rw [hres]
      exact calibFromResults_filter n (calibResults predictions actuals)

/-- A member of a looked-up adjacency list comes from some entry of the
association list with the looked-up key. -/
theorem alistGetD_subset {α : Type} (m : List (String × List α)) (k : String) {x : α}
    (hx : x ∈ alistGetD m k []) : ∃ p ∈ m, p.1 = k ∧ x ∈ p.2 := by
  induction m with
  | nil => simp [alistGetD, alistFind?] at hx
  | cons p rest ih =>
    by_cases hk : p.1 = k
    · refine ⟨p, List.mem_cons_self p rest, hk, ?_⟩
      simpa [alistGetD, alistFind?, hk] using hx
    · have hx' : x ∈ alistGetD rest k [] := by
        simpa [alistGetD, alistFind?, hk] using hx
      obtain ⟨q, hq, hqk, hqx⟩ := ih hx'
      exact ⟨q, List.mem_cons_of_mem p hq, hqk, hqx⟩

/-- Python `list.remove` succeeds exactly when the element is present. -/
theorem removeFirst_eq_some_of_mem {α : Type} [DecidableEq α] {l : List α} {x : α}
    (h : x ∈ l) : ∃ l1, removeFirst l x = some l1 := by
  induction l with
  | nil => simp at h
  | cons y ys ih =>
    by_cases hyx : y = x
    · exact ⟨ys, by simp [removeFirst, hyx]⟩
    · have hx : x ∈ ys := by
        rcases List.mem_cons.mp h with h1 | h1
        · exact absurd h1.symm hyx
        · exact h1
      obtain ⟨l1, hl1⟩ := ih hx
      exact ⟨y :: l1, by simp [removeFirst, hyx, hl1]⟩

/-- On a consistent graph, `add_link` with both endpoints present never
raises: the duplicate-removal `list.remove` calls always find their
element. -/
theorem add_link_ok (g : CausalGraph) (link : CausalLink) (hcons : Consistent g)
    (hs : alistContains g.entities link.source = true)
    (ht : alistContains g.entities link.target = true) :
    (g.add_link link).2 = none := by
  unfold CausalGraph.add_link
  rw [if_neg (not_not_intro hs), if_neg (not_not_intro ht)]
  cases hfind : (alistGetD g._outgoing link.source []).find? (fun ex =>
      decide (ex.target = link.target) && decide (ex.relationship_type = link.relationship_type)) with
  | none => simp [hfind]
  | some existing =>
    have hmem : existing ∈ alistGetD g._outgoing link.source [] :=
      List.mem_of_find?_eq_some hfind
    have htgt : existing.target = link.target := by
      have hp := List.find?_some hfind
      simp only [Bool.and_eq_true, decide_eq_true_eq] at hp
      exact hp.1
    obtain ⟨out1, hout1⟩ := removeFirst_eq_some_of_mem hmem
    have hinc : existing ∈ alistGetD g._incoming link.target [] := by
      obtain ⟨p, hp, hpk, hpx⟩ := alistGetD_subset g._outgoing link.source hmem
      have := hcons p hp existing hpx
      rwa [htgt] at this
    obtain ⟨inc1, hinc1⟩ := removeFirst_eq_some_of_mem hinc
    simp [hfind, hout1, hinc1]

/-- C8: on a graph whose adjacency indices are consistent, `add_link l`
raises if and only if `l.source` or `l.target` is not a key of the
entities dict, and a raising call leaves the graph state (entities and
both adjacency indices) unchanged — the endpoint checks run before any
mutation. -/
theorem C8_theorem (g : CausalGraph) (link : CausalLink) (hcons : Consistent g) :
    ((g.add_link link).2 ≠ none ↔
      (alistContains g.entities link.source = false ∨
       alistContains g.entities link.target = false)) ∧
    ((g.add_link link).2 ≠ none → (g.add_link link).1 = g) := by
  by_cases hs : alistContains g.entities link.source = true
  · by_cases ht : alistContains g.entities link.target = true
    · have hok := add_link_ok g link hcons hs ht
      constructor
      · rw [hok]
        simp [hs, ht]
      · intro hne
        exact absurd hok hne
    · have hval : g.add_link link = (g, some "Target entity not found in graph") := by
        unfold CausalGraph.add_link
        rw [if_neg (not_not_intro hs), if_pos ht]
      rw [hval]
      constructor
      · simp [Bool.not_eq_true] at ht
        simp [ht]
      · intro _
        rfl
  · have hval : g.add_link link = (g, some "Source entity not found in graph") := by
      unfold CausalGraph.add_link
      rw [if_pos hs]
    rw [hval]
    constructor
    · simp [Bool.not_eq_true] at hs
      simp [hs]
    · intro _
      rfl

/-- C8 (witness): on the consistent scenario graph, adding a link whose
target entity `Z` is absent raises and leaves the graph unchanged. -/
theorem C8_witness :
    ((exampleGraph.add_link ⟨"A", "Z", "t", 1/2, 1, 0, 1/2, 1, [], 1/2, 0, "manual", none⟩).2 ≠ none ↔
      (alistContains exampleGraph.entities "A" = false ∨
       alistContains exampleGraph.entities "Z" = false)) ∧
    ((exampleGraph.add_link ⟨"A", "Z", "t", 1/2, 1, 0, 1/2, 1, [], 1/2, 0, "manual", none⟩).2 ≠ none →
      (exampleGraph.add_link ⟨"A", "Z", "t", 1/2, 1, 0, 1/2, 1, [], 1/2, 0, "manual", none⟩).1 = exampleGraph) :=
  C8_theorem exampleGraph ⟨"A", "Z", "t", 1/2, 1, 0, 1/2, 1, [], 1/2, 0, "manual", none⟩
    (by with_unfolding_all decide)

/-- The strength block never touches confidence. -/
theorem strengthStep_confidence (c : PredictionOutcome) (lr : ℚ) (l : CausalLink) :
    (strengthStep c lr l).confidence = l.confidence := by
  simp only [strengthStep]
  split_ifs <;> rfl

/-- The strength block never touches delay_mean. -/
theorem strengthStep_delay_mean (c : PredictionOutcome) (lr : ℚ) (l : CausalLink) :
    (strengthStep c lr l).delay_mean = l.delay_mean := by
  simp only [strengthStep]
  split_ifs <;> rfl

/-- The strength block keeps strength inside `[0.01, 0.99]`: when it
updates, it clamps; when it skips, the prior value stands. -/
theorem strengthStep_strength_mem (c : PredictionOutcome) (lr : ℚ) (l : CausalLink)
    (h1 : 1/100 ≤ l.strength) (h2 : l.strength ≤ 99/100) :
    1/100 ≤ (strengthStep c lr l).strength ∧ (strengthStep c lr l).strength ≤ 99/100 := by
  simp only [strengthStep]
  split_ifs
  · exact ⟨le_max_left _ _, max_le (by norm_num) (min_le_left _ _)⟩
  · exact ⟨h1, h2⟩
  · exact ⟨h1, h2⟩

/-- The delay block never touches strength. -/
theorem delayStep_strength (c : PredictionOutcome) (lr : ℚ) (l : CausalLink) :
    (delayStep c lr l).strength = l.strength := by
  simp only [delayStep]
  split_ifs <;> rfl

/-- The delay block never touches confidence. -/
theorem delayStep_confidence (c : PredictionOutcome) (lr : ℚ) (l : CausalLink) :
    (delayStep c lr l).confidence = l.confidence := by
  simp only [delayStep]
  split_ifs <;> rfl

/-- The delay block keeps `delay_mean ≥ 0.1` (floor when updating, prior
value when skipping). -/
theorem delayStep_delay_mem (c : PredictionOutcome) (lr : ℚ) (l : CausalLink)
    (h : 1/10 ≤ l.delay_mean) : 1/10 ≤ (delayStep c lr l).delay_mean := by
  simp only [delayStep]
  split_ifs
  · exact le_max_left _ _
  · exact le_max_left _ _
  · exact h

/-- The confidence block never touches strength. -/
theorem confidenceStep_strength (c : PredictionOutcome) (lr : ℚ) (l : CausalLink) :
    (confidenceStep c lr l).strength = l.strength := by
  simp only [confidenceStep]
  split_ifs <;> rfl

/-- The confidence block never touches delay_mean. -/
theorem confidenceStep_delay_mean (c : PredictionOutcome) (lr : ℚ) (l : CausalLink) :
    (confidenceStep c lr l).delay_mean = l.delay_mean := by
  simp only [confidenceStep]
  split_ifs <;> rfl

/-- With a nonnegative learning rate the confidence block keeps
confidence inside `[0.1, 0.99]`. -/
theorem confidenceStep_conf_mem (c : PredictionOutcome) (lr : ℚ) (l : CausalLink)
    (hlr : 0 ≤ lr) (h1 : 1/10 ≤ l.confidence) (h2 : l.confidence ≤ 99/100) :
    1/10 ≤ (confidenceStep c lr l).confidence ∧
      (confidenceStep c lr l).confidence ≤ 99/100 := by
  simp only [confidenceStep]
  split_ifs
  · exact ⟨le_min (by norm_num) (by linarith), min_le_left _ _⟩
  · exact ⟨le_max_left _ _, max_le (by norm_num) (by linarith)⟩

/-- The bookkeeping block never touches strength, confidence or
delay_mean. -/
theorem bookkeepingStep_fields (c : PredictionOutcome) (l : CausalLink) :
    (bookkeepingStep c l).strength = l.strength ∧
    (bookkeepingStep c l).confidence = l.confidence ∧
    (bookkeepingStep c l).delay_mean = l.delay_mean :=
  ⟨rfl, rfl, rfl⟩

/-- `_update_link` with a nonnegative learning rate preserves the range
clamps on a link already inside them. -/
theorem updateLinkFn_preserves (c : PredictionOutcome) (lr : ℚ) (l : CausalLink)
    (hlr : 0 ≤ lr) (h : linkInRanges l) : linkInRanges (updateLinkFn c lr l) := by
  obtain ⟨hs1, hs2, hc1, hc2, hd⟩ := h
  have h1 := strengthStep_strength_mem c lr l hs1 hs2
  have h1c := strengthStep_confidence c lr l
  have h1d := strengthStep_delay_mean c lr l
  have h2d := delayStep_delay_mem c lr (strengthStep c lr l) (by rw [h1d]; exact hd)
  have h2s := delayStep_strength c lr (strengthStep c lr l)
  have h2c := delayStep_confidence c lr (strengthStep c lr l)
  have h3 := confidenceStep_conf_mem c lr (delayStep c lr (strengthStep c lr l)) hlr
    (by rw [h2c, h1c]; exact hc1) (by rw [h2c, h1c]; exact hc2)
  have h3s := confidenceStep_strength c lr (delayStep c lr (strengthStep c lr l))
  have h3d := confidenceStep_delay_mean c lr (delayStep c lr (strengthStep c lr l))
  have h4 := bookkeepingStep_fields c
    (confidenceStep c lr (delayStep c lr (strengthStep c lr l)))
  unfold updateLinkFn
  refine ⟨?_, ?_, ?_, ?_, ?_⟩
  · rw [h4.1, h3s, h2s]; exact h1.1
  · rw [h4.1, h3s, h2s]; exact h1.2
  · rw [h4.2.1]; exact h3.1
  · rw [h4.2.1]; exact h3.2
  · rw [h4.2.2, h3d]; exact h2d

/-- In-place update of the first matching list element preserves a
predicate the update function preserves. -/
theorem updateFirst_preserve {α : Type} (P : α → Prop) (pred : α → Bool) (f : α → α)
    (hf : ∀ x, P x → P (f x)) :
    ∀ xs : List α, (∀ x ∈ xs, P x) → ∀ y ∈ updateFirst pred f xs, P y := by
  intro xs
  induction xs with
  | nil => intro _ y hy; simp [updateFirst] at hy
  | cons x rest ih =>
    intro hxs y hy
    by_cases hp : pred x = true
    · rw [updateFirst, if_pos hp] at hy
      rcases List.mem_cons.mp hy with h | h
      · exact h ▸ hf x (hxs x (List.mem_cons_self x rest))
      · exact hxs y (List.mem_cons_of_mem x h)
    · rw [updateFirst, if_neg hp] at hy
      rcases List.mem_cons.mp hy with h | h
      · exact h ▸ hxs x (List.mem_cons_self x rest)
      · exact ih (fun z hz => hxs z (List.mem_cons_of_mem x hz)) y h

/-- Every entry after an `alistModify` is an original entry or an
original entry with its value transformed. -/
theorem mem_alistModify {α : Type} (m : List (String × α)) (k : String) (f : α → α) :
    ∀ p ∈ alistModify m k f, p ∈ m ∨ ∃ q ∈ m, p = (q.1, f q.2) := by
  induction m with
  | nil => simp [alistModify]
  | cons q rest ih =>
    intro p hp
    by_cases hk : q.1 = k
    · rw [alistModify, if_pos hk] at hp
      rcases List.mem_cons.mp hp with h | h
      · exact Or.inr ⟨q, List.mem_cons_self _ _, h⟩
      · exact Or.inl (List.mem_cons_of_mem q h)
    · rw [alistModify, if_neg hk] at hp
      rcases List.mem_cons.mp hp with h | h
      · exact Or.inl (h ▸ List.mem_cons_self q rest)
      · rcases ih p h with h' | ⟨r, hr, hrr⟩
        · exact Or.inl (List.mem_cons_of_mem q h')
        · exact Or.inr ⟨r, List.mem_cons_of_mem q hr, hrr⟩

/-- A link of an adjacency entry is a link of the graph. -/
theorem mem_iter_links {g : CausalGraph} {p : String × List CausalLink}
    (hp : p ∈ g._outgoing) {l : CausalLink} (hl : l ∈ p.2) : l ∈ g.iter_links := by
  unfold CausalGraph.iter_links
  rw [List.mem_flatten]
  exact ⟨p.2, List.mem_map_of_mem _ hp, hl⟩

/-- The in-place link update of the learning loop preserves any
per-link predicate its update function preserves. -/
theorem updateLinkAt_preserve (P : CausalLink → Prop) (g : CausalGraph)
    (s t : String) (f : CausalLink → CausalLink)
    (hg : ∀ l ∈ g.iter_links, P l) (hf : ∀ l, P l → P (f l)) :
    ∀ l ∈ (updateLinkAt g s t f).iter_links, P l := by
  intro l hl
  simp only [updateLinkAt, CausalGraph.iter_links] at hl
  rw [List.mem_flatten] at hl
  obtain ⟨ls, hls, hlls⟩ := hl
  rw [List.mem_map] at hls
  obtain ⟨p, hp, rfl⟩ := hls
  rcases mem_alistModify g._outgoing s _ p hp with h | ⟨q, hq, rfl⟩
  · exact hg l (mem_iter_links h hlls)
  · exact updateFirst_preserve P _ f hf q.2
      (fun x hx => hg x (mem_iter_links hq hx)) l hlls

/-- A fold preserves an invariant its step preserves. -/
theorem foldl_preserve {σ β : Type} (inv : σ → Prop) (step : σ → β → σ)
    (hstep : ∀ s b, inv s → inv (step s b)) :
    ∀ (l : List β) (s : σ), inv s → inv (l.foldl step s) := by
  intro l
  induction l with
  | nil => intro s hs; exact hs
  | cons b rest ih => intro s hs; exact ih _ (hstep s b hs)

/-- The link-update pass of `learn_from_outcomes` keeps every link of
the graph inside the range clamps, for nonnegative learning rates. -/
theorem applyLinkUpdates_preserve (lr : ℚ) (matched : List PredictionOutcome)
    (g : CausalGraph) (hlr : 0 ≤ lr)
    (hg : ∀ l ∈ g.iter_links, linkInRanges l) :
    ∀ l ∈ (applyLinkUpdates lr matched g).1.iter_links, linkInRanges l := by
  unfold applyLinkUpdates
  refine foldl_preserve (fun acc => ∀ l ∈ acc.1.iter_links, linkInRanges l) _ ?_ matched (g, 0) hg
  intro acc comparison hacc
  refine foldl_preserve (fun acc => ∀ l ∈ acc.1.iter_links, linkInRanges l) _ ?_ _ acc hacc
  intro acc2 item hacc2
  cases item with
  | ev e => exact hacc2
  | link lk =>
    cases hgl : acc2.1.get_link lk.source lk.target with
    | none => simpa [hgl] using hacc2
    | some found =>
      simp only [hgl]
      exact updateLinkAt_preserve _ acc2.1 _ _ _ hacc2
        (fun l hl => updateLinkFn_preserves comparison lr l hlr hl)

/-- One `learn_from_outcomes` call keeps every link of the graph inside
the range clamps, for nonnegative learning rates. -/
theorem learn_preserve (cascade : Cascade) (outcomes : List Outcome)
    (g : CausalGraph) (lr : ℚ) (hlr : 0 ≤ lr)
    (hg : ∀ l ∈ g.iter_links, linkInRanges l) :
    ∀ l ∈ (learn_from_outcomes cascade outcomes g lr).2.iter_links, linkInRanges l := by
  unfold learn_from_outcomes
  by_cases hm : matchEffectsToOutcomes cascade.effects outcomes = []
  · simp only [if_pos hm]
    exact hg
  · simp only [if_neg hm]
    exact applyLinkUpdates_preserve lr _ g hlr hg

/-- C4 (amended): for every graph whose links initially satisfy the
range clamps and every sequence of `learn_from_outcomes` calls with
nonnegative learning rates, after the calls every link of the graph
still satisfies `strength ∈ [0.01, 0.99]`, `confidence ∈ [0.1, 0.99]`
and `delay_mean ≥ 0.1`. -/
theorem C4_theorem (calls : List (Cascade × List Outcome × ℚ)) :
    ∀ g : CausalGraph, (∀ c ∈ calls, 0 ≤ c.2.2) →
      (∀ l ∈ g.iter_links, linkInRanges l) →
      ∀ l ∈ (learnMany g calls).iter_links, linkInRanges l := by
  induction calls with
  | nil =>
    intro g _ hg
    simpa [learnMany] using hg
  | cons c rest ih =>
    intro g hlr hg
    have h1 : 0 ≤ c.2.2 := hlr c (List.mem_cons_self c rest)
    have hg' := learn_preserve c.1 c.2.1 g c.2.2 h1 hg
    have hrest : ∀ c' ∈ rest, 0 ≤ c'.2.2 :=
      fun c' hc' => hlr c' (List.mem_cons_of_mem c hc')
    simpa [learnMany, List.foldl_cons] using
      ih ((learn_from_outcomes c.1 c.2.1 g c.2.2).2) hrest hg'

/-- C4 (counterexample): the claim fails as stated, in two ways. A graph
whose link starts with confidence 0 (the constructor does not clamp)
still violates the ranges after a `learn_from_outcomes` call that
updates it (the direction-correct branch gives `min(0.99, 0 + 0.002) =
0.002 < 0.1`); and an in-range graph is driven out of range by a
negative learning rate (−100 gives confidence `min(0.99, 0.8 − 2) < 0`). -/
theorem C4_counterexample :
    (¬ ∀ l ∈ (learn_from_outcomes lowConfCascade [⟨"B", 1/20, 1⟩]
        lowConfGraph (1/10)).2.iter_links, linkInRanges l) ∧
    (¬ ∀ l ∈ (learn_from_outcomes exampleCascadeB [⟨"B", -1/20, 1⟩]
        exampleGraph (-100)).2.iter_links, linkInRanges l) := by
  with_unfolding_all decide

/-- C4 (witness): one learning call with rate 0.1 on the in-range
scenario graph keeps every link inside the clamps. -/
theorem C4_witness :
    (∀ c ∈ [(exampleCascadeB, ([⟨"B", -1/20, 1⟩] : List Outcome), (1/10 : ℚ))], 0 ≤ c.2.2) ∧
    (∀ l ∈ exampleGraph.iter_links, linkInRanges l) ∧
    (∀ l ∈ (learnMany exampleGraph
        [(exampleCascadeB, [⟨"B", -1/20, 1⟩], 1/10)]).iter_links, linkInRanges l) :=
  ⟨by with_unfolding_all decide, by with_unfolding_all decide,
   C4_theorem [(exampleCascadeB, [⟨"B", -1/20, 1⟩], 1/10)] exampleGraph
     (by with_unfolding_all decide) (by with_unfolding_all decide)⟩

/-- The child filter never lengthens the outgoing-link list. -/
theorem expandEntry_length (hd : ℤ) (mc mm : ℚ) (gauss : ℕ → ℚ) (e : QEntry) :
    ∀ (links : List CausalLink) (ctr : ℕ),
      (expandEntry hd mc mm gauss e links ctr).1.length ≤ links.length := by
  intro links
  induction links with
  | nil => intro ctr; simp [expandEntry]
  | cons link rest ih =>
    intro ctr
    simp only [expandEntry]
    split_ifs
    · exact le_trans (ih _) (Nat.le_succ _)
    · simpa using Nat.succ_le_succ (ih _)

/-- Every enqueued child sits one hop further than its parent. -/
theorem expandEntry_order (hd : ℤ) (mc mm : ℚ) (gauss : ℕ → ℚ) (e : QEntry) :
    ∀ (links : List CausalLink) (ctr : ℕ),
      ∀ c ∈ (expandEntry hd mc mm gauss e links ctr).1, c.order = e.order + 1 := by
  intro links
  induction links with
  | nil => intro ctr c hc; simp [expandEntry] at hc
  | cons link rest ih =>
    intro ctr c hc
    simp only [expandEntry] at hc
    split_ifs at hc
    · exact ih _ c hc
    · rcases List.mem_cons.mp hc with h | h
      · rw [h]
      · exact ih _ c h

/-- Summing a function that is constant on a list. -/
theorem sum_map_const_of {α : Type} (f : α → ℕ) (X : ℕ) :
    ∀ l : List α, (∀ a ∈ l, f a = X) → (l.map f).sum = l.length * X := by
  intro l
  induction l with
  | nil => intro _; simp
  | cons a rest ih =>
    intro h
    have ha := h a (List.mem_cons_self a rest)
    have hr := ih (fun b hb => h b (List.mem_cons_of_mem a hb))
    simp only [List.map_cons, List.sum_cons, List.length_cons, ha, hr]
    ring

/-- A looked-up adjacency list is never longer than the total link
count. -/
theorem alistGetD_length_le (m : List (String × List CausalLink)) (k : String) :
    (alistGetD m k []).length ≤ (m.map (fun p => p.2.length)).sum := by
  induction m with
  | nil => simp [alistGetD, alistFind?]
  | cons p rest ih =>
    by_cases hk : p.1 = k
    · simp only [alistGetD, alistFind?, if_pos hk, Option.getD_some, List.map_cons, List.sum_cons]
      exact Nat.le_add_right _ _
    · simp only [alistGetD, alistFind?, if_neg hk, List.map_cons, List.sum_cons]
      exact le_trans ih (Nat.le_add_left _ _)

/-- `get_outgoing` returns at most `num_links` links. -/
theorem get_outgoing_length_le (g : CausalGraph) (x : String) :
    (g.get_outgoing x).length ≤ g.num_links := by
  unfold CausalGraph.get_outgoing CausalGraph.num_links
  rw [List.length_insertionSort]
  exact alistGetD_length_le g._outgoing x

/-- Expanding one queue entry strictly pays for itself in the
`queueMeasure`: the children's total weight plus one is at most the
parent's weight. -/
theorem expansion_measure_le (g : CausalGraph) (hd : ℤ) (mc mm : ℚ) (mo : ℤ)
    (gauss : ℕ → ℚ) (entry : QEntry) (rest : List QEntry) (fuel ctr : ℕ)
    (horder : (entry.order : ℤ) < mo)
    (hq : entryWeight (g.num_links + 1) mo entry +
      queueMeasure (g.num_links + 1) mo rest ≤ fuel + 1) :
    queueMeasure (g.num_links + 1) mo
      (rest ++ (expandEntry hd mc mm gauss entry (g.get_outgoing entry.entity) ctr).1) ≤ fuel := by
  have hlen : (expandEntry hd mc mm gauss entry (g.get_outgoing entry.entity) ctr).1.length ≤
      g.num_links :=
    le_trans (expandEntry_length hd mc mm gauss entry _ ctr) (get_outgoing_length_le g _)
  have hsum : queueMeasure (g.num_links + 1) mo
      (expandEntry hd mc mm gauss entry (g.get_outgoing entry.entity) ctr).1 =
      (expandEntry hd mc mm gauss entry (g.get_outgoing entry.entity) ctr).1.length *
        (g.num_links + 1) ^ (mo - (entry.order : ℤ)).toNat := by
    apply sum_map_const_of
    intro c hc
    have hco := expandEntry_order hd mc mm gauss entry _ ctr c hc
    unfold entryWeight
    rw [hco]
    congr 1
    push_cast
    omega
  have e1 : (expandEntry hd mc mm gauss entry (g.get_outgoing entry.entity) ctr).1.length *
      (g.num_links + 1) ^ (mo - (entry.order : ℤ)).toNat ≤
      g.num_links * (g.num_links + 1) ^ (mo - (entry.order : ℤ)).toNat :=
    Nat.mul_le_mul_right _ hlen
  have e2 : entryWeight (g.num_links + 1) mo entry =
      g.num_links * (g.num_links + 1) ^ (mo - (entry.order : ℤ)).toNat +
        (g.num_links + 1) ^ (mo - (entry.order : ℤ)).toNat := by
    unfold entryWeight
    have hkk : (mo + 1 - (entry.order : ℤ)).toNat = (mo - (entry.order : ℤ)).toNat + 1 := by
      omega
    rw [hkk, pow_succ]
    ring
  have e3 : 1 ≤ (g.num_links + 1) ^ ((mo : ℤ) - (entry.order : ℤ)).toNat :=
    Nat.one_le_pow _ _ (Nat.succ_pos _)
  unfold queueMeasure at *
  rw [List.map_append, List.sum_append]
  rw [hsum] at *
  omega

/-- Popping without expanding frees at least one unit of fuel. -/
theorem pop_measure_le (B : ℕ) (mo : ℤ) (entry : QEntry) (rest : List QEntry)
    (fuel : ℕ) (hB : 0 < B)
    (hq : queueMeasure B mo (entry :: rest) ≤ fuel + 1) :
    queueMeasure B mo rest ≤ fuel := by
  have h1 : 1 ≤ entryWeight B mo entry := Nat.one_le_pow _ _ hB
  unfold queueMeasure at *
  simp only [List.map_cons, List.sum_cons] at hq
  omega

/-- The BFS loop of `propagate` empties its queue within `queueMeasure`
iterations: every iteration pops one entry, and an expansion enqueues at
most `num_links` children of strictly smaller weight. -/
theorem propagateAux_isSome (g : CausalGraph) (hd : ℤ) (mc mm : ℚ) (mo : ℤ)
    (gauss : ℕ → ℚ) :
    ∀ (fuel : ℕ) (q : List QEntry) (visited : List (String × ℚ))
      (effects : List Effect) (ctr : ℕ),
      queueMeasure (g.num_links + 1) mo q ≤ fuel →
      (propagateAux g hd mc mm mo gauss fuel q visited effects ctr).isSome = true := by
  intro fuel
  induction fuel with
  | zero =>
    intro q visited effects ctr hq
    cases q with
    | nil => simp [propagateAux]
    | cons entry rest =>
      exfalso
      have h1 : 1 ≤ entryWeight (g.num_links + 1) mo entry :=
        Nat.one_le_pow _ _ (Nat.succ_pos _)
      unfold queueMeasure at hq
      simp only [List.map_cons, List.sum_cons] at hq
      omega
  | succ fuel ih =>
    intro q visited effects ctr hq
    cases q with
    | nil => simp [propagateAux]
    | cons entry rest =>
      have hw : entryWeight (g.num_links + 1) mo entry +
          queueMeasure (g.num_links + 1) mo rest ≤ fuel + 1 := by
        unfold queueMeasure at hq
        simp only [List.map_cons, List.sum_cons] at hq
        unfold queueMeasure
        omega
      have hpop : queueMeasure (g.num_links + 1) mo rest ≤ fuel :=
        pop_measure_le (g.num_links + 1) mo entry rest fuel (Nat.succ_pos _) (by
          unfold queueMeasure
          simp only [List.map_cons, List.sum_cons]
          unfold queueMeasure at hw
          omega)
      simp only [propagateAux]
      split_ifs with hv hstop ho1 ho2
      · exact ih rest visited effects ctr hpop
      · exact ih rest _ _ ctr hpop
      · exact ih rest _ _ ctr hpop
      · push_neg at hstop
        exact ih _ _ _ _ (expansion_measure_le g hd mc mm mo gauss entry rest fuel ctr
          hstop.1 hw)
      · push_neg at hstop
        exact ih _ _ _ _ (expansion_measure_le g hd mc mm mo gauss entry rest fuel ctr
          hstop.1 hw)

/-- C3: for every finite graph — cyclic or not — and every event,
horizon, thresholds and maximum order, `propagate` terminates: the BFS
loop run with fuel equal to the initial `queueMeasure` always drains its
queue and returns a result (`propagateRuns` is never `none`). Each
iteration consumes one queue entry, and children are only enqueued below
`max_order`, each with exponentially smaller measure weight. -/
theorem C3_theorem (event : Event) (g : CausalGraph) (horizon_days : ℤ)
    (min_confidence min_magnitude : ℚ) (max_order : ℤ) (gauss : ℕ → ℚ) :
    (propagateRuns event g horizon_days min_confidence min_magnitude
      max_order gauss).isSome = true := by
  unfold propagateRuns
  exact propagateAux_isSome g horizon_days min_confidence min_magnitude max_order gauss
    _ _ [] [] 0 (le_refl _)

/-- A link returned by `get_outgoing` is a link of the graph. -/
theorem mem_of_get_outgoing {g : CausalGraph} {x : String} {l : CausalLink}
    (hl : l ∈ g.get_outgoing x) : l ∈ g.iter_links := by
  unfold CausalGraph.get_outgoing at hl
  rw [List.mem_insertionSort] at hl
  obtain ⟨p, hp, hpk, hpx⟩ := alistGetD_subset g._outgoing x hl
  exact mem_iter_links hp hpx

/-- When every link has `delay_std = 0`, the child expansion reads no
random draws: its children are independent of the sample stream and the
counter, and the counter does not advance. -/
theorem expandEntry_gauss_indep (hd : ℤ) (mc mm : ℚ) (e : QEntry) :
    ∀ links : List CausalLink, (∀ l ∈ links, l.delay_std = 0) →
      ∀ (g1 g2 : ℕ → ℚ) (c1 c2 : ℕ),
        (expandEntry hd mc mm g1 e links c1).1 = (expandEntry hd mc mm g2 e links c2).1 ∧
        (expandEntry hd mc mm g1 e links c1).2 = c1 := by
  intro links
  induction links with
  | nil => intro _ g1 g2 c1 c2; exact ⟨rfl, rfl⟩
  | cons link rest ih =>
    intro h g1 g2 c1 c2
    have hstd : link.delay_std = 0 := h link (List.mem_cons_self link rest)
    have hrest := ih (fun l hl => h l (List.mem_cons_of_mem link hl))
    obtain ⟨ht1, ht2⟩ := hrest g1 g2 c1 c2
    obtain ⟨ht1', ht2'⟩ := hrest g1 g1 c1 c1
    simp only [expandEntry, CausalLink.sample_delay, if_pos hstd]
    constructor
    · split_ifs
      · exact ht1
      · simp only [List.cons.injEq, ht1, and_true]
    · split_ifs
      · exact ht2'
      · exact ht2'

/-- When every link of the graph has `delay_std = 0`, the BFS loop is a
function of its explicit arguments only: any two sample streams and
counters produce identical results. -/
theorem propagateAux_gauss_indep (g : CausalGraph) (hd : ℤ) (mc mm : ℚ) (mo : ℤ)
    (hzero : ∀ l ∈ g.iter_links, l.delay_std = 0) :
    ∀ (fuel : ℕ) (q : List QEntry) (visited : List (String × ℚ))
      (effects : List Effect) (c1 c2 : ℕ) (g1 g2 : ℕ → ℚ),
      propagateAux g hd mc mm mo g1 fuel q visited effects c1 =
        propagateAux g hd mc mm mo g2 fuel q visited effects c2 := by
  intro fuel
  induction fuel with
  | zero =>
    intro q visited effects c1 c2 g1 g2
    cases q <;> rfl
  | succ fuel ih =>
    intro q visited effects c1 c2 g1 g2
    cases q with
    | nil => rfl
    | cons entry rest =>
      have hout : ∀ l ∈ g.get_outgoing entry.entity, l.delay_std = 0 :=
        fun l hl => hzero l (mem_of_get_outgoing hl)
      obtain ⟨he1, he2⟩ :=
        expandEntry_gauss_indep hd mc mm entry (g.get_outgoing entry.entity) hout g1 g2 c1 c2
      simp only [propagateAux]
      split_ifs
      · exact ih rest visited effects c1 c2 g1 g2
      · exact ih rest _ _ c1 c2 g1 g2
      · exact ih rest _ _ c1 c2 g1 g2
      · rw [← he1]
        exact ih _ _ _ _ _ g1 g2
      · rw [← he1]
        exact ih _ _ _ _ _ g1 g2

/-- C2: on a graph whose links all have `delay_std = 0`, two `propagate`
calls with identical arguments return equal cascades — the same effect
list, element for element and in identical order — whatever the
underlying random streams produce. -/
theorem C2_theorem (event : Event) (g : CausalGraph) (horizon_days : ℤ)
    (min_confidence min_magnitude : ℚ) (max_order : ℤ) (g1 g2 : ℕ → ℚ)
    (hzero : ∀ l ∈ g.iter_links, l.delay_std = 0) :
    propagate event g horizon_days min_confidence min_magnitude max_order g1 =
      propagate event g horizon_days min_confidence min_magnitude max_order g2 := by
  unfold propagate propagateRuns
  rw [propagateAux_gauss_indep g horizon_days min_confidence min_magnitude max_order hzero
    _ _ [] [] 0 0 g1 g2]

/-- C2 (witness): the zero-variance scenario graph yields the same
cascade under two different sample streams. -/
theorem C2_witness :
    (∀ l ∈ exampleGraph.iter_links, l.delay_std = 0) ∧
    propagate exampleEvent exampleGraph 14 (1/10) (1/200) 5 (fun _ => 0) =
      propagate exampleEvent exampleGraph 14 (1/10) (1/200) 5 (fun n => (n : ℚ) + 7) :=
  ⟨by with_unfolding_all decide,
   C2_theorem exampleEvent exampleGraph 14 (1/10) (1/200) 5 (fun _ => 0)
     (fun n => (n : ℚ) + 7) (by with_unfolding_all decide)⟩

/-- A sampled delay is nonnegative whenever the link's `delay_mean` is:
the stochastic branch clamps at 0, and the deterministic branch returns
`delay_mean` itself. -/
theorem sample_delay_nonneg (link : CausalLink) (gauss : ℕ → ℚ) (ctr : ℕ)
    (h : 0 ≤ link.delay_mean) : 0 ≤ (link.sample_delay gauss ctr).1 := by
  unfold CausalLink.sample_delay
  split_ifs
  · exact h
  · exact le_max_left _ _

/-- Every surviving child of an expansion satisfies the enqueue
thresholds, sits one hop further, and (for nonnegative link delays)
inherits a nonnegative day. -/
theorem expandEntry_children_inv (hd : ℤ) (mc mm : ℚ) (gauss : ℕ → ℚ) (e : QEntry)
    (hday : 0 ≤ e.day) :
    ∀ (links : List CausalLink) (ctr : ℕ), (∀ l ∈ links, 0 ≤ l.delay_mean) →
      ∀ c ∈ (expandEntry hd mc mm gauss e links ctr).1,
        c.order = e.order + 1 ∧ mc ≤ c.confidence ∧ mm ≤ |c.magnitude| ∧
        0 ≤ c.day ∧ c.day ≤ (hd : ℚ) := by
  intro links
  induction links with
  | nil => intro ctr _ c hc; simp [expandEntry] at hc
  | cons link rest ih =>
    intro ctr hdm c hc
    have hrest := ih (link.sample_delay gauss ctr).2
      (fun l hl => hdm l (List.mem_cons_of_mem link hl))
    simp only [expandEntry] at hc
    split_ifs at hc with hcond
    · exact hrest c hc
    · push_neg at hcond
      rcases List.mem_cons.mp hc with h | h
      · subst h
        refine ⟨rfl, hcond.2.1, hcond.1, ?_, hcond.2.2⟩
        exact add_nonneg hday
          (sample_delay_nonneg link gauss ctr (hdm link (List.mem_cons_self link rest)))
      · exact hrest c h

/-- The loop invariant of the BFS: if every queued entry and every
already-emitted effect satisfies the thresholds, so does every effect of
the final (sorted) result. -/
theorem propagateAux_inv (g : CausalGraph) (hd : ℤ) (mc mm : ℚ) (mo : ℤ)
    (gauss : ℕ → ℚ) (hdm : ∀ l ∈ g.iter_links, 0 ≤ l.delay_mean) :
    ∀ (fuel : ℕ) (q : List QEntry) (visited : List (String × ℚ))
      (effects : List Effect) (ctr : ℕ) (res : List Effect),
      (∀ e ∈ q, entryInv hd mc mm mo e) →
      (∀ f ∈ effects, effectWithinThresholds hd mc mm mo f) →
      propagateAux g hd mc mm mo gauss fuel q visited effects ctr = some res →
      ∀ f ∈ res, effectWithinThresholds hd mc mm mo f := by
  intro fuel
  induction fuel with
  | zero =>
    intro q visited effects ctr res hq heff hres
    cases q with
    | nil =>
      simp only [propagateAux, Option.some.injEq] at hres
      subst hres
      intro f hf
      rw [sortEffects, List.mem_insertionSort] at hf
      exact heff f hf
    | cons entry rest => simp [propagateAux] at hres
  | succ fuel ih =>
    intro q visited effects ctr res hq heff hres
    cases q with
    | nil =>
      simp only [propagateAux, Option.some.injEq] at hres
      subst hres
      intro f hf
      rw [sortEffects, List.mem_insertionSort] at hf
      exact heff f hf
    | cons entry rest =>
      have hqrest : ∀ e ∈ rest, entryInv hd mc mm mo e :=
        fun e he => hq e (List.mem_cons_of_mem entry he)
      have hqe := hq entry (List.mem_cons_self entry rest)
      simp only [propagateAux] at hres
      split_ifs at hres with hv hstop ho1 ho2
      · exact ih rest visited effects ctr res hqrest heff hres
      · -- stopped, effect emitted (entry.order > 0)
        refine ih rest _ _ ctr res hqrest ?_ hres
        intro f hf
        rcases List.mem_append.mp hf with h | h
        · exact heff f h
        · have hfe : f = entry.toEffect := by simpa using h
          subst hfe
          obtain ⟨hc, hm, hdle, hole⟩ := hqe.2 ho1
          exact ⟨hc, hm, hqe.1, hdle, ho1, hole⟩
      · -- stopped, no effect emitted (the seed)
        exact ih rest _ _ ctr res hqrest heff hres
      · -- expanded, effect emitted
        push_neg at hstop
        refine ih _ _ _ _ res ?_ ?_ hres
        · intro e he
          rcases List.mem_append.mp he with h | h
          · exact hqrest e h
          · obtain ⟨hord, hc, hm, hd0, hdle⟩ :=
              expandEntry_children_inv hd mc mm gauss entry hqe.1
                (g.get_outgoing entry.entity) ctr
                (fun l hl => hdm l (mem_of_get_outgoing hl)) e h
            refine ⟨hd0, fun _ => ⟨hc, hm, hdle, ?_⟩⟩
            rw [hord]
            push_cast
            omega
        · intro f hf
          rcases List.mem_append.mp hf with h | h
          · exact heff f h
          · have hfe : f = entry.toEffect := by simpa using h
            subst hfe
            obtain ⟨hc, hm, hdle, hole⟩ := hqe.2 ho2
            exact ⟨hc, hm, hqe.1, hdle, ho2, hole⟩
      · -- expanded, no effect emitted (the seed)
        push_neg at hstop
        refine ih _ _ _ _ res ?_ heff hres
        intro e he
        rcases List.mem_append.mp he with h | h
        · exact hqrest e h
        · obtain ⟨hord, hc, hm, hd0, hdle⟩ :=
            expandEntry_children_inv hd mc mm gauss entry hqe.1
              (g.get_outgoing entry.entity) ctr
              (fun l hl => hdm l (mem_of_get_outgoing hl)) e h
          refine ⟨hd0, fun _ => ⟨hc, hm, hdle, ?_⟩⟩
          rw [hord]
          push_cast
          omega

/-- C9: when every link has a nonnegative `delay_mean` (the data model's
`delay_mean ≥ 0` invariant), every Effect in a cascade returned by
`propagate` satisfies all four thresholds — `confidence ≥
min_confidence`, `|magnitude| ≥ min_magnitude`, `0 ≤ day ≤
horizon_days`, `1 ≤ order ≤ max_order` — because children are filtered
at enqueue time and only entries below `max_order` are expanded. -/
theorem C9_theorem (event : Event) (g : CausalGraph) (horizon_days : ℤ)
    (min_confidence min_magnitude : ℚ) (max_order : ℤ) (gauss : ℕ → ℚ)
    (hdm : ∀ l ∈ g.iter_links, 0 ≤ l.delay_mean) :
    ∀ f ∈ (propagate event g horizon_days min_confidence min_magnitude
        max_order gauss).effects,
      effectWithinThresholds horizon_days min_confidence min_magnitude max_order f := by
  intro f hf
  unfold propagate at hf
  cases hres : propagateRuns event g horizon_days min_confidence min_magnitude
      max_order gauss with
  | none =>
    rw [hres] at hf
    simp at hf
  | some effs =>
    rw [hres] at hf
    have hrun : propagateAux g horizon_days min_confidence min_magnitude max_order gauss
        (queueMeasure (g.num_links + 1) max_order (initialQueue event))
        (initialQueue event) [] [] 0 = some effs := hres
    refine propagateAux_inv g horizon_days min_confidence min_magnitude max_order gauss hdm
      _ _ _ _ _ effs ?_ (by simp) hrun f hf
    intro e he
    have : e = ⟨event.entity, event.magnitude, 0, 1, 0, [ChainItem.ev event]⟩ := by
      simpa [initialQueue] using he
    subst this
    exact ⟨le_refl 0, fun h => absurd h (by simp)⟩

/-- C9 (witness): on the scenario graph with the default thresholds,
every returned effect satisfies all four threshold bounds. -/
theorem C9_witness :
    (∀ l ∈ exampleGraph.iter_links, 0 ≤ l.delay_mean) ∧
    (∀ f ∈ (propagate exampleEvent exampleGraph 14 (1/10) (1/200) 5 (fun _ => 0)).effects,
      effectWithinThresholds 14 (1/10) (1/200) 5 f) :=
  ⟨by with_unfolding_all decide,
   C9_theorem exampleEvent exampleGraph 14 (1/10) (1/200) 5 (fun _ => 0)
     (by with_unfolding_all decide)⟩

end Cognitive
